import Mathlib

/-!
Shallow embedding of `src/fasta_validate.cpp` (a FASTA file validator) and
proofs about its validation scanner.

Modelling choices:
* A byte is `Fin 256`; a line is the byte string `fgets` places in the buffer
  (terminator included, no interior NUL), a file is the list of such lines.
* `(int) seq[i]` in C promotes a signed `char`, so bytes ≥ 128 are read as
  negative integers; `charAsInt` reproduces that conversion.
* The scanner `validate_fasta_core` is the loop of the C function of the same
  name, with the process-global `hsearch` table made explicit as the list of
  keys inserted so far (the loop only ever consults membership).
* `validateCoreDestroy` additionally records whether the run reaches the
  `hdestroy()` call, which in the C source sits only on the success path.
-/

namespace FastaValidate

abbrev Byte := Fin 256

abbrev Line := List Byte

/-- The value `(int) c` takes in C when `char` is signed (x86-64 Linux). -/
def charAsInt (c : Byte) : Int :=
  if c.val < 128 then (c.val : Int) else (c.val : Int) - 256

/-- Loop of `contains_non_word_characters` over the bytes of the line:
returns 1 for a byte below 65 other than LF/CR, 2 for a byte strictly
between 90 and 97, 3 for a byte above 122, and 0 when every byte passes. -/
def cnwcLoop : List Byte → Nat
  | [] => 0
  | c :: rest =>
    if charAsInt c < 65 then
      if charAsInt c ≠ 10 ∧ charAsInt c ≠ 13 then 1 else cnwcLoop rest
    else if 90 < charAsInt c ∧ charAsInt c < 97 then 2
    else if 122 < charAsInt c then 3
    else cnwcLoop rest

/-- `contains_non_word_characters(char *seq, ...)`: `none` models a NULL
pointer argument (returns 8); otherwise the byte loop runs. -/
def contains_non_word_characters : Option (List Byte) → Nat
  | none => 8
  | some seq => cnwcLoop seq

/-- The key stored in the hash table for a header line: the C code finds the
first space with `strchr(line, ' ')` and truncates there, so the key is the
line's prefix before the first space byte (the whole line, terminator
included, when there is no space). The leading marker is kept. -/
def headerKey (l : Line) : Line :=
  l.takeWhile (fun c => !(c.val == 32))

/-- `line[0] == '>'`: the line starts with the marker byte 62. -/
def isHeader (l : Line) : Prop :=
  l.head? = some (62 : Byte)

instance (l : Line) : Decidable (isHeader l) := by
  unfold isHeader; infer_instance

/-- The `while (fgets(...))` loop of `validate_fasta_core`, with the loop
state (`firstline`, `seqcount`, inserted hash keys) explicit. After the loop
the C code returns 8 when `seqcount == 0` and 0 otherwise. -/
def scanFasta (firstline : Bool) (seqcount : Nat) (seen : List Line) :
    List Line → Nat
  | [] => if seqcount = 0 then 8 else 0
  | line :: rest =>
    if isHeader line then
      if firstline = false ∧ seqcount = 0 then 8
      else if headerKey line ∈ seen then 2
      else scanFasta false 0 (headerKey line :: seen) rest
    else
      if firstline = true then 1
      else if contains_non_word_characters (some line) ≠ 0 then 4
      else scanFasta false (seqcount + line.length) seen rest

/-- `validate_fasta_core` on an opened stream of lines: the loop starts with
`firstline = 1`, `seqcount = 0` and a freshly created (empty) hash table. -/
def validate_fasta_core (lines : List Line) : Nat :=
  scanFasta true 0 [] lines

/-- The `while (gzgets(...))` loop of `validate_fasta_core_gzip`. Its
branches, comparisons and return codes are those of the gzip variant of the
scanner; the variant differs from the plain one only in stream calls and in
where `gzclose`/`hdestroy` are placed, none of which affect the returned
code. -/
def scanFastaGz (firstline : Bool) (seqcount : Nat) (seen : List Line) :
    List Line → Nat
  | [] => if seqcount = 0 then 8 else 0
  | line :: rest =>
    if isHeader line then
      if firstline = false ∧ seqcount = 0 then 8
      else if headerKey line ∈ seen then 2
      else scanFastaGz false 0 (headerKey line :: seen) rest
    else
      if firstline = true then 1
      else if contains_non_word_characters (some line) ≠ 0 then 4
      else scanFastaGz false (seqcount + line.length) seen rest

/-- `validate_fasta_core_gzip` on its stream of lines. -/
def validate_fasta_core_gzip (lines : List Line) : Nat :=
  scanFastaGz true 0 [] lines

/-- The scanner loop instrumented with whether the run reaches `hdestroy()`:
in the C source every fault `return` (8 at a header transition, 2, 1, 4, and
the end-of-stream 8) exits before the `hdestroy()` call; only the final
`return 0` comes after it. -/
def scanFastaDestroy (firstline : Bool) (seqcount : Nat) (seen : List Line) :
    List Line → Nat × Bool
  | [] => if seqcount = 0 then (8, false) else (0, true)
  | line :: rest =>
    if isHeader line then
      if firstline = false ∧ seqcount = 0 then (8, false)
      else if headerKey line ∈ seen then (2, false)
      else scanFastaDestroy false 0 (headerKey line :: seen) rest
    else
      if firstline = true then (1, false)
      else if contains_non_word_characters (some line) ≠ 0 then (4, false)
      else scanFastaDestroy false (seqcount + line.length) seen rest

/-- `validate_fasta_core` together with the fact of `hdestroy()` running. -/
def validateCoreDestroy (lines : List Line) : Nat × Bool :=
  scanFastaDestroy true 0 [] lines

/-- Spec-modelled, for comparison with `headerKey`: the record identifier as
the specification words it — the header line with its leading marker
stripped, truncated at the first whitespace character (space, tab, CR, LF). -/
def specIdentifier (l : Line) : Line :=
  (l.drop 1).takeWhile
    (fun c => !(c.val == 32 || c.val == 9 || c.val == 10 || c.val == 13))

/-- A byte the classifier accepts: ASCII uppercase letter, ASCII lowercase
letter, LF or CR. -/
def goodChar (c : Byte) : Prop :=
  (65 ≤ c.val ∧ c.val ≤ 90) ∨ (97 ≤ c.val ∧ c.val ≤ 122) ∨
    c.val = 10 ∨ c.val = 13

instance (c : Byte) : Decidable (goodChar c) := by
  unfold goodChar; infer_instance

/-- Every byte of the line is a letter or a tolerated terminator. -/
def lettersOnly (l : Line) : Prop :=
  ∀ c ∈ l, goodChar c

instance (l : Line) : Decidable (lettersOnly l) := by
  unfold lettersOnly; infer_instance

/-- A line with no content beyond line terminators. -/
def blankLine (l : Line) : Prop :=
  ∀ c ∈ l, c.val = 10 ∨ c.val = 13

instance (l : Line) : Decidable (blankLine l) := by
  unfold blankLine; infer_instance

/-- A file decomposed into FASTA records: each record is a header line
followed by its (non-header) body lines. -/
def flattenRecords (rs : List (Line × List Line)) : List Line :=
  rs.flatMap (fun r => r.1 :: r.2)

/-- Some header line is immediately followed by another header line. -/
def hasAdjacentHeaders (lines : List Line) : Prop :=
  ∃ p s a b, lines = p ++ a :: b :: s ∧ isHeader a ∧ isHeader b

/-- The last header of the file is followed only by zero-length lines, i.e.
the final record has zero sequence characters. -/
def finalRecordEmpty (lines : List Line) : Prop :=
  ∃ p h t, lines = p ++ h :: t ∧ isHeader h ∧ ∀ l ∈ t, l = []

/-- Two header lines carry the same hash-table key (the line truncated at
the first space byte). -/
def hasDuplicateKeys (lines : List Line) : Prop :=
  ∃ p a m b s, lines = p ++ a :: (m ++ b :: s) ∧ isHeader a ∧ isHeader b ∧
    headerKey a = headerKey b

/-- Some non-header line fails the character classifier. -/
def hasBadSequenceLine (lines : List Line) : Prop :=
  ∃ p l s, lines = p ++ l :: s ∧ ¬ isHeader l ∧ cnwcLoop l ≠ 0

/-! ### Character classifier lemmas -/

lemma charAsInt_of_lt (c : Byte) (h : c.val < 128) : charAsInt c = (c.val : Int) := by
  unfold charAsInt; rw [if_pos h]

lemma cnwcLoop_cons_good (c : Byte) (l : List Byte) (h : goodChar c) :
    cnwcLoop (c :: l) = cnwcLoop l := by
  have h128 : c.val < 128 := by
    rcases h with ⟨h1, h2⟩ | ⟨h1, h2⟩ | h1 | h1 <;> omega
  have e : charAsInt c = (c.val : Int) := charAsInt_of_lt c h128
  simp only [cnwcLoop, e]
  rcases h with ⟨h1, h2⟩ | ⟨h1, h2⟩ | h1 | h1
  · rw [if_neg (by omega), if_neg (by omega), if_neg (by omega)]
  · rw [if_neg (by omega), if_neg (by omega), if_neg (by omega)]
  · rw [if_pos (by omega), if_neg (by omega)]
  · rw [if_pos (by omega), if_neg (by omega)]

lemma cnwcLoop_cons_bad (c : Byte) (l : List Byte) (h : ¬ goodChar c) :
    cnwcLoop (c :: l) = 1 ∨ cnwcLoop (c :: l) = 2 ∨ cnwcLoop (c :: l) = 3 := by
  have h256 := c.isLt
  have hcase : (c.val < 65 ∧ c.val ≠ 10 ∧ c.val ≠ 13) ∨ (90 < c.val ∧ c.val < 97)
      ∨ (122 < c.val ∧ c.val < 128) ∨ 128 ≤ c.val := by
    unfold goodChar at h; omega
  simp only [cnwcLoop]
  rcases hcase with ⟨h1, h2, h3⟩ | ⟨h1, h2⟩ | ⟨h1, h2⟩ | h1
  · rw [charAsInt_of_lt c (by omega), if_pos (by omega), if_pos (by omega)]
    exact Or.inl rfl
  · rw [charAsInt_of_lt c (by omega), if_neg (by omega), if_pos (by omega)]
    exact Or.inr (Or.inl rfl)
  · rw [charAsInt_of_lt c (by omega), if_neg (by omega), if_neg (by omega),
      if_pos (by omega)]
    exact Or.inr (Or.inr rfl)
  · have e : charAsInt c = (c.val : Int) - 256 := by
      unfold charAsInt; rw [if_neg (by omega)]
    rw [e, if_pos (by omega), if_pos (by omega)]
    exact Or.inl rfl

lemma cnwcLoop_eq_zero_iff (l : List Byte) : cnwcLoop l = 0 ↔ lettersOnly l := by
  induction l with
  | nil => simp [cnwcLoop, lettersOnly]
  | cons c t ih =>
    by_cases hg : goodChar c
    · rw [cnwcLoop_cons_good c t hg, ih]
      unfold lettersOnly
      constructor
      · intro hall d hd
        rcases List.mem_cons.mp hd with rfl | hd
        · exact hg
        · exact hall d hd
      · intro hall d hd
        exact hall d (List.mem_cons_of_mem _ hd)
    · constructor
      · intro h0
        rcases cnwcLoop_cons_bad c t hg with hb | hb | hb <;> omega
      · intro hall
        exact absurd (hall c (List.mem_cons_self c t)) hg

lemma cnwcLoop_le_three (l : List Byte) : cnwcLoop l ≤ 3 := by
  induction l with
  | nil => simp [cnwcLoop]
  | cons c t ih =>
    by_cases hg : goodChar c
    · rw [cnwcLoop_cons_good c t hg]; exact ih
    · rcases cnwcLoop_cons_bad c t hg with hb | hb | hb <;> omega

/-! ### Scanner helper lemmas -/

lemma lettersOnly_not_header (l : Line) (h : lettersOnly l) : ¬ isHeader l := by
  intro hh
  unfold isHeader at hh
  cases l with
  | nil => simp at hh
  | cons c t =>
    have hc : c = (62 : Byte) := by simpa using hh
    have hg := h c (List.mem_cons_self c t)
    rw [hc] at hg
    exact absurd hg (by decide)

lemma blankLine_not_header (l : Line) (h : blankLine l) : ¬ isHeader l := by
  intro hh
  unfold isHeader at hh
  cases l with
  | nil => simp at hh
  | cons c t =>
    have hc : c = (62 : Byte) := by simpa using hh
    have hg := h c (List.mem_cons_self c t)
    rw [hc] at hg
    exact absurd hg (by decide)

lemma validate_cons_not_header (l : Line) (rest : List Line) (h : ¬ isHeader l) :
    validate_fasta_core (l :: rest) = 1 := by
  unfold validate_fasta_core
  simp only [scanFasta, if_neg h]
  simp

lemma scanFasta_codes (lines : List Line) :
    ∀ fl sc seen, scanFasta fl sc seen lines = 0 ∨ scanFasta fl sc seen lines = 1 ∨
      scanFasta fl sc seen lines = 2 ∨ scanFasta fl sc seen lines = 4 ∨
      scanFasta fl sc seen lines = 8 := by
  induction lines with
  | nil =>
    intro fl sc seen
    simp only [scanFasta]
    split_ifs <;> simp
  | cons l rest ih =>
    intro fl sc seen
    simp only [scanFasta]
    split_ifs <;> first | exact ih _ _ _ | simp

lemma scanFasta_append_body (b : List Line) :
    ∀ (sc : Nat) (seen tail : List Line), (∀ l ∈ b, lettersOnly l) →
      scanFasta false sc seen (b ++ tail)
        = scanFasta false (sc + (b.map List.length).sum) seen tail := by
  induction b with
  | nil => intro sc seen tail _; simp
  | cons l b' ih =>
    intro sc seen tail hb
    have hl : lettersOnly l := hb l (List.mem_cons_self l b')
    have hnh : ¬ isHeader l := lettersOnly_not_header l hl
    have hc : cnwcLoop l = 0 := (cnwcLoop_eq_zero_iff l).mpr hl
    simp only [List.cons_append, scanFasta, if_neg hnh, List.append_eq]
    rw [if_neg (by simp), if_neg (by simp [contains_non_word_characters, hc]),
      ih (sc + l.length) seen tail (fun d hd => hb d (List.mem_cons_of_mem _ hd))]
    have he : sc + l.length + (b'.map List.length).sum
        = sc + ((l :: b').map List.length).sum := by
      simp [Nat.add_assoc]
    rw [he]

lemma scanFasta_allNil (t : List Line) :
    ∀ seen, (∀ l ∈ t, l = []) → scanFasta false 0 seen t = 8 := by
  induction t with
  | nil => intro seen _; simp [scanFasta]
  | cons l t' ih =>
    intro seen h
    have hl : l = [] := h l (List.mem_cons_self l t')
    subst hl
    have hnh : ¬ isHeader ([] : Line) := by unfold isHeader; simp
    simp only [scanFasta, if_neg hnh]
    rw [if_neg (by simp), if_neg (by simp [contains_non_word_characters, cnwcLoop])]
    simpa using ih seen (fun d hd => h d (List.mem_cons_of_mem _ hd))

lemma scanFasta_seen_ne_zero (lines : List Line) :
    ∀ fl sc seen, (∃ l, l ∈ lines ∧ isHeader l ∧ headerKey l ∈ seen) →
      scanFasta fl sc seen lines ≠ 0 := by
  induction lines with
  | nil =>
    rintro fl sc seen ⟨l, hl, -, -⟩
    exact absurd hl (List.not_mem_nil l)
  | cons q rest ih =>
    rintro fl sc seen ⟨l, hl, hhl, hkl⟩
    simp only [scanFasta]
    split_ifs with hH hA hB hC hD
    · simp
    · simp
    · apply ih
      rcases List.mem_cons.mp hl with rfl | hl'
      · exact absurd hkl hB
      · exact ⟨l, hl', hhl, List.mem_cons_of_mem _ hkl⟩
    · simp
    · simp
    · apply ih
      rcases List.mem_cons.mp hl with rfl | hl'
      · exact absurd hhl hH
      · exact ⟨l, hl', hhl, hkl⟩

lemma scanFasta_adjacent_ne_zero (p : List Line) (a b : Line) (s : List Line)
    (ha : isHeader a) (hb : isHeader b) :
    ∀ fl sc seen, scanFasta fl sc seen (p ++ a :: b :: s) ≠ 0 := by
  induction p with
  | nil =>
    intro fl sc seen
    simp only [List.nil_append, scanFasta]
    split_ifs <;> simp_all
  | cons q p' ih =>
    intro fl sc seen
    simp only [List.cons_append, scanFasta]
    split_ifs <;> first | exact ih _ _ _ | simp

lemma scanFasta_finalEmpty_ne_zero (p : List Line) (h : Line) (t : List Line)
    (hh : isHeader h) (ht : ∀ l ∈ t, l = []) :
    ∀ fl sc seen, scanFasta fl sc seen (p ++ h :: t) ≠ 0 := by
  induction p with
  | nil =>
    intro fl sc seen
    simp only [List.nil_append, scanFasta]
    split_ifs with hA hB
    · simp
    · simp
    · rw [scanFasta_allNil t (headerKey h :: seen) ht]
      simp
  | cons q p' ih =>
    intro fl sc seen
    simp only [List.cons_append, scanFasta]
    split_ifs <;> first | exact ih _ _ _ | simp

lemma scanFasta_dup_ne_zero (p : List Line) (a : Line) (m : List Line) (b : Line)
    (s : List Line) (ha : isHeader a) (hb : isHeader b)
    (hk : headerKey a = headerKey b) :
    ∀ fl sc seen, scanFasta fl sc seen (p ++ a :: (m ++ b :: s)) ≠ 0 := by
  induction p with
  | nil =>
    intro fl sc seen
    simp only [List.nil_append, scanFasta]
    split_ifs with hA hB
    · simp
    · simp
    · apply scanFasta_seen_ne_zero
      refine ⟨b, by simp, hb, ?_⟩
      rw [hk]
      exact List.mem_cons_self _ _
  | cons q p' ih =>
    intro fl sc seen
    simp only [List.cons_append, scanFasta]
    split_ifs <;> first | exact ih _ _ _ | simp

lemma scanFasta_badline_ne_zero (p : List Line) (l : Line) (s : List Line)
    (hnh : ¬ isHeader l) (hc : cnwcLoop l ≠ 0) :
    ∀ fl sc seen, scanFasta fl sc seen (p ++ l :: s) ≠ 0 := by
  induction p with
  | nil =>
    intro fl sc seen
    simp only [List.nil_append, scanFasta]
    split_ifs with hC hD
    · simp
    · simp
    · simp only [contains_non_word_characters, ne_eq, not_not] at hD
      exact absurd hD hc
  | cons q p' ih =>
    intro fl sc seen
    simp only [List.cons_append, scanFasta]
    split_ifs <;> first | exact ih _ _ _ | simp

lemma scanFasta_records (rs : List (Line × List Line)) :
    ∀ (fl : Bool) (sc : Nat) (seen : List Line),
      (fl = true ∨ sc ≠ 0) →
      (rs = [] → sc ≠ 0) →
      (∀ r ∈ rs, isHeader r.1) →
      (∀ r ∈ rs, ∀ l ∈ r.2, lettersOnly l) →
      (∀ r ∈ rs, 0 < (r.2.map List.length).sum) →
      (∀ r ∈ rs, headerKey r.1 ∉ seen) →
      ((rs.map (fun r => headerKey r.1)).Pairwise (fun x y => x ≠ y)) →
      scanFasta fl sc seen (flattenRecords rs) = 0 := by
  induction rs with
  | nil =>
    intro fl sc seen hfl hsc _ _ _ _ _
    have hne : sc ≠ 0 := hsc rfl
    simp [flattenRecords, scanFasta, hne]
  | cons r rs' ih =>
    rcases r with ⟨h, b⟩
    intro fl sc seen hfl hsc hhead hbody hnz hseen hpw
    have hh : isHeader h := hhead ⟨h, b⟩ (List.mem_cons_self _ _)
    have hbl : ∀ l ∈ b, lettersOnly l := hbody ⟨h, b⟩ (List.mem_cons_self _ _)
    have hsum : 0 < (b.map List.length).sum := hnz ⟨h, b⟩ (List.mem_cons_self _ _)
    have hfr : flattenRecords (⟨h, b⟩ :: rs') = h :: (b ++ flattenRecords rs') := by
      simp [flattenRecords]
    rw [hfr]
    simp only [scanFasta]
    rw [if_pos hh, if_neg ?hc1, if_neg (hseen ⟨h, b⟩ (List.mem_cons_self _ _))]
    case hc1 =>
      rintro ⟨e1, e2⟩
      rcases hfl with hft | hsc0
      · rw [hft] at e1; exact absurd e1 (by simp)
      · exact hsc0 e2
    rw [scanFasta_append_body b 0 (headerKey h :: seen) (flattenRecords rs') hbl]
    rw [List.map_cons] at hpw
    have hpw' := List.pairwise_cons.mp hpw
    apply ih false (0 + (b.map List.length).sum) (headerKey h :: seen)
    · right; omega
    · intro _; omega
    · intro r hr; exact hhead r (List.mem_cons_of_mem _ hr)
    · intro r hr; exact hbody r (List.mem_cons_of_mem _ hr)
    · intro r hr; exact hnz r (List.mem_cons_of_mem _ hr)
    · intro r hr hmem
      rcases List.mem_cons.mp hmem with heq | hmem'
      · exact hpw'.1 (headerKey r.1)
          (List.mem_map_of_mem (fun x => headerKey x.1) hr) heq.symm
      · exact hseen r (List.mem_cons_of_mem _ hr) hmem'
    · exact hpw'.2

/-! ### Identifier lemmas -/

lemma takeWhile_space_then_ws (t : List Byte) :
    ((t.takeWhile fun c => !(c.val == 32)).takeWhile
        fun c => !(c.val == 32 || c.val == 9 || c.val == 10 || c.val == 13))
      = t.takeWhile fun c => !(c.val == 32 || c.val == 9 || c.val == 10 || c.val == 13) := by
  rw [List.takeWhile_takeWhile]
  congr 1
  funext c
  by_cases h : c.val = 32
  · simp [h]
  · simp [h, Bool.beq_eq_decide_eq]

lemma headerKey_cons_marker (t : List Byte) :
    headerKey ((62 : Byte) :: t) = (62 : Byte) :: t.takeWhile (fun c => !(c.val == 32)) := by
  unfold headerKey
  simp [List.takeWhile_cons]
  decide

lemma isHeader_shape (l : Line) (h : isHeader l) : ∃ t, l = (62 : Byte) :: t := by
  cases l with
  | nil => simp [isHeader] at h
  | cons c t =>
    have hc : c = (62 : Byte) := by simpa [isHeader] using h
    exact ⟨t, by rw [hc]⟩

lemma specIdentifier_of_headerKey (l1 l2 : Line) (h1 : isHeader l1) (h2 : isHeader l2)
    (hk : headerKey l1 = headerKey l2) : specIdentifier l1 = specIdentifier l2 := by
  obtain ⟨t1, rfl⟩ := isHeader_shape l1 h1
  obtain ⟨t2, rfl⟩ := isHeader_shape l2 h2
  rw [headerKey_cons_marker, headerKey_cons_marker] at hk
  have hk' : t1.takeWhile (fun c => !(c.val == 32))
      = t2.takeWhile (fun c => !(c.val == 32)) := by
    simpa using hk
  unfold specIdentifier
  simp only [List.drop_succ_cons, List.drop_zero]
  rw [← takeWhile_space_then_ws t1, ← takeWhile_space_then_ws t2, hk']

/-! ### Gzip scanner and destroy-flag lemmas -/

lemma scanFastaGz_eq_scanFasta (lines : List Line) :
    ∀ fl sc seen, scanFastaGz fl sc seen lines = scanFasta fl sc seen lines := by
  induction lines with
  | nil => intro fl sc seen; rfl
  | cons l rest ih =>
    intro fl sc seen
    simp only [scanFastaGz, scanFasta]
    split_ifs <;> first | rfl | exact ih _ _ _

lemma scanFastaDestroy_snd_iff (lines : List Line) :
    ∀ fl sc seen, ((scanFastaDestroy fl sc seen lines).2 = true ↔
      (scanFastaDestroy fl sc seen lines).1 = 0) := by
  induction lines with
  | nil =>
    intro fl sc seen
    simp only [scanFastaDestroy]
    split_ifs <;> simp
  | cons l rest ih =>
    intro fl sc seen
    simp only [scanFastaDestroy]
    split_ifs <;> first | exact ih _ _ _ | simp

/-! ### Claim theorems -/

/-- C1: for every well-formed input — the first line is a header, every
record identifier (marker stripped, truncated at the first whitespace) is
unique, every sequence line contains only ASCII letters apart from tolerated
line terminators, and every record has non-zero sequence content — the
validation scan returns the success classification 0. -/
theorem claim_C1 (rs : List (Line × List Line))
    (hne : rs ≠ [])
    (hhead : ∀ r ∈ rs, isHeader r.1)
    (hbody : ∀ r ∈ rs, ∀ l ∈ r.2, lettersOnly l)
    (hnz : ∀ r ∈ rs, 0 < (r.2.map List.length).sum)
    (huniq : (rs.map (fun r => specIdentifier r.1)).Pairwise (fun x y => x ≠ y)) :
    validate_fasta_core (flattenRecords rs) = 0 := by
  unfold validate_fasta_core
  apply scanFasta_records rs true 0 []
  · left; rfl
  · intro h; exact absurd h hne
  · exact hhead
  · exact hbody
  · exact hnz
  · intro r _ hmem; exact absurd hmem (List.not_mem_nil _)
  · rw [List.pairwise_map] at huniq ⊢
    refine huniq.imp_of_mem ?_
    intro a b ha hb hsp heq
    exact hsp (specIdentifier_of_headerKey a.1 b.1 (hhead a ha) (hhead b hb) heq)

set_option maxRecDepth 10000 in
/-- Witness for C1 at the one-record file consisting of a header line
and one letters-only sequence line. -/
theorem claim_C1_witness :
    validate_fasta_core
      (flattenRecords [([62, 97, 10], [[65, 67, 71, 84, 10]])]) = 0 :=
  claim_C1 [([62, 97, 10], [[65, 67, 71, 84, 10]])]
    (by decide) (by decide) (by decide) (by decide) (by decide)

/-- C2: whenever the first non-blank line of the input does not begin with
the marker byte the scan returns 1, and in particular an input made only of
non-header lines returns the missing-header fault 1 and never the
empty-sequence fault 8 (missing-header takes priority). -/
theorem claim_C2 :
    (∀ (lines : List Line) (l : Line),
        lines.find? (fun x => !(decide (blankLine x))) = some l →
        l.head? ≠ some (62 : Byte) → validate_fasta_core lines = 1) ∧
    (∀ lines : List Line, lines ≠ [] → (∀ l ∈ lines, ¬ isHeader l) →
        validate_fasta_core lines = 1) := by
  constructor
  · intro lines l hfind hhd
    cases lines with
    | nil => simp at hfind
    | cons l0 rest =>
      apply validate_cons_not_header
      by_cases hb : blankLine l0
      · exact blankLine_not_header l0 hb
      · have he : l0 = l := by
          simp [List.find?_cons, hb] at hfind
          exact hfind
        rw [he]
        exact hhd
  · intro lines hne hall
    cases lines with
    | nil => exact absurd rfl hne
    | cons l0 rest =>
      exact validate_cons_not_header l0 rest (hall l0 (List.mem_cons_self _ _))

set_option maxRecDepth 10000 in
/-- Witness for C2: a file starting with a sequence line returns 1, and a
non-empty file with no header at all returns 1 rather than 8. -/
theorem claim_C2_witness :
    validate_fasta_core [[65, 67, 71, 84, 10], [62, 115, 10]] = 1 ∧
    validate_fasta_core [[10], [65, 10]] = 1 :=
  ⟨claim_C2.1 [[65, 67, 71, 84, 10], [62, 115, 10]] [65, 67, 71, 84, 10]
      (by decide) (by decide),
   claim_C2.2 [[10], [65, 10]] (by decide) (by decide)⟩

/-- C3 counterexample: the file "A\n", ">a\n", ">b\n" has a header line
immediately followed by another header line, yet the scan returns 1 (the
missing-header fault at the first line), not 8 as the claim states. -/
theorem claim_C3_counterexample :
    hasAdjacentHeaders [[65, 10], [62, 97, 10], [62, 98, 10]] ∧
    validate_fasta_core [[65, 10], [62, 97, 10], [62, 98, 10]] = 1 := by
  constructor
  · exact ⟨[[65, 10]], [], [62, 97, 10], [62, 98, 10], rfl, by decide, by decide⟩
  · decide

/-- C3 amended: a completely empty file returns 8; an input with a header
immediately followed by a header, or with an empty final record, returns 8
provided no earlier fault (missing header 1, duplicate 2, invalid
character 4) terminated the scan first; and the at-header-transition
empty check is skipped at the very first header. -/
theorem claim_C3_amended :
    validate_fasta_core [] = 8 ∧
    (∀ lines : List Line, hasAdjacentHeaders lines →
      validate_fasta_core lines ≠ 1 → validate_fasta_core lines ≠ 2 →
      validate_fasta_core lines ≠ 4 → validate_fasta_core lines = 8) ∧
    (∀ lines : List Line, finalRecordEmpty lines →
      validate_fasta_core lines ≠ 1 → validate_fasta_core lines ≠ 2 →
      validate_fasta_core lines ≠ 4 → validate_fasta_core lines = 8) ∧
    (∀ (h : Line) (rest seen : List Line), isHeader h →
      scanFasta true 0 seen (h :: rest)
        = if headerKey h ∈ seen then 2
          else scanFasta false 0 (headerKey h :: seen) rest) := by
  refine ⟨rfl, ?_, ?_, ?_⟩
  · intro lines hadj h1 h2 h4
    rcases hadj with ⟨p, s, a, b, rfl, ha, hb⟩
    have hnz := scanFasta_adjacent_ne_zero p a b s ha hb true 0 []
    unfold validate_fasta_core at h1 h2 h4 ⊢
    rcases scanFasta_codes (p ++ a :: b :: s) true 0 [] with h | h | h | h | h
    · exact absurd h hnz
    · exact absurd h h1
    · exact absurd h h2
    · exact absurd h h4
    · exact h
  · intro lines hfin h1 h2 h4
    rcases hfin with ⟨p, hl, t, rfl, hh, ht⟩
    have hnz := scanFasta_finalEmpty_ne_zero p hl t hh ht true 0 []
    unfold validate_fasta_core at h1 h2 h4 ⊢
    rcases scanFasta_codes (p ++ hl :: t) true 0 [] with h | h | h | h | h
    · exact absurd h hnz
    · exact absurd h h1
    · exact absurd h h2
    · exact absurd h h4
    · exact h
  · intro h rest seen hh
    simp only [scanFasta, if_pos hh]
    rw [if_neg (by rintro ⟨e, -⟩; simp at e)]

/-- Witness for C3 amended: a header immediately followed by a header gives
8, a file whose final (sole) record is empty gives 8, and at the very first
header the transition check does not fire. -/
theorem claim_C3_amended_witness :
    validate_fasta_core [[62, 97, 10], [62, 98, 10]] = 8 ∧
    validate_fasta_core [[62, 97, 10]] = 8 ∧
    scanFasta true 0 [] ([62, 97, 10] :: [])
      = if headerKey [62, 97, 10] ∈ ([] : List Line) then 2
        else scanFasta false 0 (headerKey [62, 97, 10] :: []) [] := by
  refine ⟨?_, ?_, ?_⟩
  · exact claim_C3_amended.2.1 [[62, 97, 10], [62, 98, 10]]
      ⟨[], [], [62, 97, 10], [62, 98, 10], rfl, by decide, by decide⟩
      (by decide) (by decide) (by decide)
  · exact claim_C3_amended.2.2.1 [[62, 97, 10]]
      ⟨[], [62, 97, 10], [], rfl, by decide, by decide⟩
      (by decide) (by decide) (by decide)
  · exact claim_C3_amended.2.2.2 [62, 97, 10] [] [] (by decide)

/-- C4 counterexample: the file ">s\n", ">s\n", "A\n" carries the same
identifier token on two distinct header lines, yet the scan returns 8 (the
empty-sequence fault at the second header fires before the duplicate
check), not 2 as the claim states. -/
theorem claim_C4_counterexample :
    (∃ p a m b s, ([[62, 115, 10], [62, 115, 10], [65, 10]] : List Line)
        = p ++ a :: (m ++ b :: s) ∧ isHeader a ∧ isHeader b ∧
        specIdentifier a = specIdentifier b) ∧
    validate_fasta_core [[62, 115, 10], [62, 115, 10], [65, 10]] = 8 := by
  constructor
  · exact ⟨[], [62, 115, 10], [], [62, 115, 10], [[65, 10]], rfl,
      by decide, by decide, rfl⟩
  · decide

/-- C4 amended: for every input in which two distinct header lines carry
the same hash-table key (the line truncated at the first space byte, which
in particular entails the same identifier token), the scan returns the
duplicate-identifier fault 2 provided no earlier fault — missing header 1,
invalid character 4, or empty sequence 8 — terminates the scan first. -/
theorem claim_C4_amended (lines : List Line) (hdup : hasDuplicateKeys lines)
    (h1 : validate_fasta_core lines ≠ 1) (h4 : validate_fasta_core lines ≠ 4)
    (h8 : validate_fasta_core lines ≠ 8) : validate_fasta_core lines = 2 := by
  rcases hdup with ⟨p, a, m, b, s, rfl, ha, hb, hk⟩
  have hnz := scanFasta_dup_ne_zero p a m b s ha hb hk true 0 []
  unfold validate_fasta_core at h1 h4 h8 ⊢
  rcases scanFasta_codes (p ++ a :: (m ++ b :: s)) true 0 [] with h | h | h | h | h
  · exact absurd h hnz
  · exact absurd h h1
  · exact h
  · exact absurd h h4
  · exact absurd h h8

/-- Witness for C4 amended at the file ">a\n", "C\n", ">a\n". -/
theorem claim_C4_amended_witness :
    validate_fasta_core [[62, 97, 10], [67, 10], [62, 97, 10]] = 2 :=
  claim_C4_amended [[62, 97, 10], [67, 10], [62, 97, 10]]
    ⟨[], [62, 97, 10], [[67, 10]], [62, 97, 10], [], rfl,
      by decide, by decide, rfl⟩
    (by decide) (by decide) (by decide)

/-- C5 counterexample: the header lines ">seq1 extra\n" and ">seq1\n" carry
the same spec-derived identifier (seq1), yet the scan does not judge them
duplicates: the file built from them validates to 0, not 2, because the
code truncates only at a space byte and keeps the trailing terminator. -/
theorem claim_C5_counterexample :
    specIdentifier [62, 115, 101, 113, 49, 32, 101, 120, 116, 114, 97, 10]
      = specIdentifier [62, 115, 101, 113, 49, 10] ∧
    validate_fasta_core
      [[62, 115, 101, 113, 49, 32, 101, 120, 116, 114, 97, 10],
       [65, 67, 71, 84, 10],
       [62, 115, 101, 113, 49, 10],
       [65, 67, 71, 84, 10]] = 0 := by
  constructor
  · decide
  · decide

/-- C5 amended: the registry key is the header line truncated at the first
space byte only — the leading marker is retained and the trailing line
terminator is kept when no space precedes it — and two header lines are
judged duplicates exactly when these keys are equal; in particular
">seq1 extra\n" and ">seq1\n" carry different keys. -/
theorem claim_C5_amended :
    (∀ l1 l2 : Line, isHeader l2 →
      (scanFasta false 1 [headerKey l1] [l2] = 2 ↔ headerKey l1 = headerKey l2)) ∧
    headerKey [62, 115, 101, 113, 49, 32, 101, 120, 116, 114, 97, 10]
      = [62, 115, 101, 113, 49] ∧
    headerKey [62, 115, 101, 113, 49, 10] = [62, 115, 101, 113, 49, 10] := by
  refine ⟨?_, by decide, by decide⟩
  intro l1 l2 hh2
  simp only [scanFasta, if_pos hh2]
  rw [if_neg (by rintro ⟨-, e⟩; simp at e)]
  by_cases hmem : headerKey l2 ∈ [headerKey l1]
  · rw [if_pos hmem]
    simp only [List.mem_singleton] at hmem
    simp [hmem]
  · rw [if_neg hmem]
    constructor
    · intro h
      simp [scanFasta] at h
    · intro heq
      exact absurd (List.mem_singleton.mpr heq.symm) hmem

/-- Witness for C5 amended: two equal header lines are judged duplicates. -/
theorem claim_C5_amended_witness :
    scanFasta false 1 [headerKey [62, 97, 10]] [[62, 97, 10]] = 2 :=
  (claim_C5_amended.1 [62, 97, 10] [62, 97, 10] (by decide)).mpr rfl

/-- C6: a non-empty line is judged clean by the character classifier if and
only if every byte is an ASCII uppercase letter, an ASCII lowercase letter,
a carriage return or a line feed; consequently an input containing a
sequence line with a byte outside these classes returns the
invalid-character fault 4 whenever no earlier fault (1, 2 or 8) terminates
the scan first. -/
theorem claim_C6 :
    (∀ l : Line, l ≠ [] →
      (contains_non_word_characters (some l) = 0 ↔ lettersOnly l)) ∧
    (∀ lines : List Line, hasBadSequenceLine lines →
      validate_fasta_core lines ≠ 1 → validate_fasta_core lines ≠ 2 →
      validate_fasta_core lines ≠ 8 → validate_fasta_core lines = 4) := by
  constructor
  · intro l _
    exact cnwcLoop_eq_zero_iff l
  · intro lines hbad h1 h2 h8
    rcases hbad with ⟨p, l, s, rfl, hnh, hc⟩
    have hnz := scanFasta_badline_ne_zero p l s hnh hc true 0 []
    unfold validate_fasta_core at h1 h2 h8 ⊢
    rcases scanFasta_codes (p ++ l :: s) true 0 [] with h | h | h | h | h
    · exact absurd h hnz
    · exact absurd h h1
    · exact absurd h h2
    · exact h
    · exact absurd h h8

set_option maxRecDepth 10000 in
/-- Witness for C6: a single uppercase letter is clean, and the file
">a\n", "0\n" (a digit in the sequence) returns 4. -/
theorem claim_C6_witness :
    contains_non_word_characters (some [(65 : Byte)]) = 0 ∧
    validate_fasta_core [[62, 97, 10], [48, 10]] = 4 := by
  constructor
  · exact (claim_C6.1 [(65 : Byte)] (by decide)).mpr (by decide)
  · exact claim_C6.2 [[62, 97, 10], [48, 10]]
      ⟨[[62, 97, 10]], [48, 10], [], rfl, by decide, by decide⟩
      (by decide) (by decide) (by decide)

/-- C7 counterexample: a zero-length (empty) string passed to the character
classifier runs the loop zero times and is classified clean (code 0),
contradicting the claim that empty input is never classified as clean. -/
theorem claim_C7_counterexample :
    contains_non_word_characters (some ([] : List Byte)) = 0 := rfl

/-- C7 amended: a null pointer to the classifier is an error condition
(code 8, distinct from the clean result 0 and from every content-fault
code, which is always at most 3), but a zero-length string is classified
clean. -/
theorem claim_C7_amended :
    contains_non_word_characters none = 8 ∧
    contains_non_word_characters none ≠ 0 ∧
    (∀ s : List Byte, contains_non_word_characters (some s) ≤ 3) := by
  refine ⟨rfl, by decide, ?_⟩
  intro s
  exact cnwcLoop_le_three s

/-- C8: for every sequence of input lines the gzip scanner and the plain
scanner return the same classification code. -/
theorem claim_C8 (lines : List Line) :
    validate_fasta_core_gzip lines = validate_fasta_core lines :=
  scanFastaGz_eq_scanFasta lines true 0 []

set_option maxRecDepth 10000 in
/-- C9: the scanner reaches the registry teardown (hdestroy) exactly on the
success path; on every fault return — including the end-of-stream
empty-sequence fault, as at the failing input ">a\n" — the run exits
without tearing down the registry, so it is not reinitialized for a later
run as the claim asserts. -/
theorem claim_C9_bug :
    validateCoreDestroy [[62, 97, 10]] = (8, false) ∧
    (∀ lines : List Line,
      ((validateCoreDestroy lines).2 = true ↔ (validateCoreDestroy lines).1 = 0)) :=
  ⟨by decide, fun lines => scanFastaDestroy_snd_iff lines true 0 []⟩

/-- C10: a line consisting only of terminators is judged clean, a clean
sequence line contributes its full byte count (terminators included) to the
sequence accumulator, and a record whose body is a single non-empty blank
line validates to 0 rather than the empty-sequence fault 8. -/
theorem claim_C10 :
    (∀ l : Line, blankLine l → cnwcLoop l = 0) ∧
    (∀ (l : Line) (sc : Nat) (seen rest : List Line),
      ¬ isHeader l → cnwcLoop l = 0 →
      scanFasta false sc seen (l :: rest)
        = scanFasta false (sc + l.length) seen rest) ∧
    (∀ h l : Line, isHeader h → l ≠ [] → blankLine l →
      validate_fasta_core [h, l] = 0) := by
  have hblank : ∀ l : Line, blankLine l → lettersOnly l := by
    intro l hb c hc
    rcases hb c hc with h | h
    · exact Or.inr (Or.inr (Or.inl h))
    · exact Or.inr (Or.inr (Or.inr h))
  have hstep : ∀ (l : Line) (sc : Nat) (seen rest : List Line),
      ¬ isHeader l → cnwcLoop l = 0 →
      scanFasta false sc seen (l :: rest)
        = scanFasta false (sc + l.length) seen rest := by
    intro l sc seen rest hnh hc
    simp only [scanFasta, if_neg hnh]
    rw [if_neg (by simp), if_neg (by simp [contains_non_word_characters, hc])]
  refine ⟨?_, hstep, ?_⟩
  · intro l hb
    exact (cnwcLoop_eq_zero_iff l).mpr (hblank l hb)
  · intro h l hh hne hb
    have hnh : ¬ isHeader l := blankLine_not_header l hb
    have hc : cnwcLoop l = 0 := (cnwcLoop_eq_zero_iff l).mpr (hblank l hb)
    have hhd : scanFasta true 0 [] (h :: [l]) = scanFasta false 0 [headerKey h] [l] := by
      simp only [scanFasta, if_pos hh]
      rw [if_neg (by rintro ⟨e, -⟩; simp at e), if_neg (List.not_mem_nil _)]
    unfold validate_fasta_core
    rw [hhd, hstep l 0 [headerKey h] [] hnh hc]
    have hlen : l.length ≠ 0 := fun h0 => hne (List.length_eq_zero.mp h0)
    simp [scanFasta, hlen]

set_option maxRecDepth 10000 in
/-- Witness for C10 at the blank line consisting of one line feed and the
file ">a\n", "\n". -/
theorem claim_C10_witness :
    cnwcLoop [(10 : Byte)] = 0 ∧
    scanFasta false 1 [] [[10], [62, 98, 10]]
      = scanFasta false 2 [] [[62, 98, 10]] ∧
    validate_fasta_core [[62, 97, 10], [10]] = 0 :=
  ⟨claim_C10.1 [(10 : Byte)] (by decide),
   claim_C10.2.1 [(10 : Byte)] 1 [] [[62, 98, 10]] (by decide) (by decide),
   claim_C10.2.2 [62, 97, 10] [(10 : Byte)] (by decide) (by decide) (by decide)⟩

end FastaValidate
